import Mathlib

/-!
Shallow embedding of the JBash shell (src/JBash.c, src/MyShell.c — the two
files agree on every function modelled here) and proofs about its
tokenizer, line editor, dispatcher, buffer growth and terminal-mode
discipline.

Modelling conventions:
* C strings are `List Char` holding the logical content (the bytes strictly
  before the terminating NUL).  A read of the byte at index `i` of a buffer
  is `bufGet`, which returns NUL out of range — matching the zero
  initialisation (`memset`) of the buffers and the terminator maintained at
  index `length`.
* The in-place writes of NUL terminators performed by the tokenizer are
  modelled with `List.set` on the same buffer; the argument array stores
  start offsets into that buffer (the C code stores pointers), and each
  argument string is read out of the final buffer up to the first NUL
  (`cstr`), exactly as `execvp`/`strcmp` would read the C pointers.
* Loops are modelled as structurally recursive functions on an explicit
  fuel argument that strictly exceeds the number of iterations the C loop
  can make, so that every definition evaluates inside the kernel.
-/

/-- `NULLCHAR` of JBash.h (`'\0'`). -/
def NULLCHAR : Char := Char.ofNat 0

/-- The double-quote byte tested at JBash.c:258. -/
def QUOTE_D : Char := Char.ofNat 34

/-- The single-quote byte tested at JBash.c:258. -/
def QUOTE_S : Char := Char.ofNat 39

/-- Read of byte `i` of a zero-initialised C buffer whose logical content is
`s`: in range it is the stored character, at and beyond `s.length` it is the
NUL terminator / zero fill. -/
def bufGet (s : List Char) (i : Nat) : Char := s.getD i NULLCHAR

/-- The quote test of JBash.c:258:
`inputString[i] == '"' || inputString[i] == '\''`. -/
def isQuoteB (c : Char) : Bool := c == QUOTE_D || c == QUOTE_S

/-- The C string starting at offset `p` of buffer `s`: the bytes from `p` up
to (excluding) the first NUL.  This is how the `char *` entries stored into
`args` by `parse` are read by their consumers. -/
def cstr (s : List Char) (p : Nat) : List Char :=
  (s.drop p).takeWhile (fun c => !(c == NULLCHAR))

/-- `realloc_leftover_string` (JBash.c:334-353), logical effect on the
finalized line: count the leading spaces and shift the content left past
them (the trailing shrink-realloc does not change the content). -/
def realloc_leftover_string (s : List Char) : List Char :=
  s.dropWhile (fun c => c == ' ')

/-- The inner `while (i < string_length && inputString[i] != quote) i++;` of
the quote branch of `parse` (JBash.c:262), with explicit fuel. -/
def findCloseF : Nat → List Char → Nat → Char → Nat → Nat
  | 0, _, _, _, i => i
  | fuel+1, s, n, q, i =>
    if i < n then
      if bufGet s i == q then i else findCloseF fuel s n q (i+1)
    else i

/-- The quote-scanning loop of JBash.c:262 run to completion: fuel `n`
bounds the at most `n - i` iterations. -/
def findClose (s : List Char) (n : Nat) (q : Char) (i : Nat) : Nat :=
  findCloseF n s n q i

/-- The token-splitting `for` loop of `parse` (JBash.c:250-278), with
explicit fuel.  State: buffer `s` (mutated by the in-place NUL writes),
`string_length` `n`, loop index `i`, `extra_whitespace` `ws`, `word_start`
offset `start`, and `acc` the start offsets stored into `args` so far.
Returns the final buffer, the stored offsets, and the final `word_start`.
The capacity check / `realloc_buffer` call at the top of the C loop body
does not alter any of this state and is modelled separately
(`realloc_buffer` below). -/
def tokLoopF : Nat → List Char → Nat → Nat → Nat → Nat → List Nat →
    List Char × List Nat × Nat
  | 0, s, _, _, _, start, acc => (s, acc, start)
  | fuel+1, s, n, i, ws, start, acc =>
    if i < n then
      if i != 0 && isQuoteB (bufGet s i) then
        -- JBash.c:258-266: quote branch
        let q := bufGet s i
        let j := findClose s n q (i+1)
        tokLoopF fuel (s.set j NULLCHAR) n (j+1) ws (j+1) (acc ++ [i+1])
      else if bufGet s i == ' ' && !(bufGet s (i+1) == ' ') then
        -- JBash.c:268-273: end of word
        tokLoopF fuel (s.set (i - ws) NULLCHAR) n (i+1) 0 (i+1) (acc ++ [start])
      else if bufGet s i == ' ' && bufGet s (i+1) == ' ' then
        -- JBash.c:275-277: extra whitespace
        tokLoopF fuel s n (i+1) (ws+1) start acc
      else
        -- any other byte: part of the current token
        tokLoopF fuel s n (i+1) ws start acc
    else (s, acc, start)

/-- The token-splitting loop of `parse` run to completion on the trimmed
line `s`: every iteration advances `i` by at least one, so `s.length + 1`
fuel is enough. -/
def tokLoop (s : List Char) : List Char × List Nat × Nat :=
  tokLoopF (s.length + 1) s s.length 0 0 0 []

/-- The tokenization phase of `parse` after the trim (JBash.c:250-287):
run the splitting loop, append the final word if non-empty
(JBash.c:281-284: `if (word_start[0] != NULLCHAR)`), and read each stored
offset out of the final buffer as a C string. -/
def tokenizeCore (s : List Char) : List (List Char) :=
  match tokLoop s with
  | (buf, starts, wstart) =>
    let all := if bufGet buf wstart == NULLCHAR then starts
               else starts ++ [wstart]
    all.map (cstr buf)

/-- The whole tokenization of a finalized line: leading-space trim
(`realloc_leftover_string`, JBash.c:248) then the splitting loop. -/
def parse_tokens (s : List Char) : List (List Char) :=
  tokenizeCore (realloc_leftover_string s)

/-- The `args` array as handed to `execute`: one entry per stored token
pointer, then the NULL sentinel written at JBash.c:285. -/
def argv (s : List Char) : List (Option (List Char)) :=
  (parse_tokens s).map some ++ [none]

/-- The allocation that backs the finalized line, with the memory past the
terminator made explicit: the logical content `s`, its NUL terminator,
then `slack` — the bytes of the allocation beyond the terminator.
`memset` zeroes only the initial 16 bytes (JBash.c:121) and
`realloc_buffer` / the shrink `realloc` never zero grown memory, so once
a line has outgrown the starting buffer these bytes are indeterminate:
they are therefore a parameter of the model, universally quantified in
the theorems that read them.  A read past the modelled allocation
returns NUL. -/
def memBytes (s slack : List Char) : List Char := s ++ NULLCHAR :: slack

/-- The tokenization phase of `parse` after the trim, read against the
full allocation: identical to `tokenizeCore` except that the final-word
check (JBash.c:281) and the stored token strings index into
`memBytes buf slack`, so the byte `word_start[0]` one past the terminator
is the indeterminate head of `slack` rather than an assumed NUL — when it
is nonzero, the final-word branch stores an extra garbage token. -/
def tokenizeCoreMem (s slack : List Char) : List (List Char) :=
  match tokLoop s with
  | (buf, starts, wstart) =>
    let all := if bufGet (memBytes buf slack) wstart == NULLCHAR then starts
               else starts ++ [wstart]
    all.map (cstr (memBytes buf slack))

/-- The whole tokenization of a finalized line against the full
allocation: leading-space trim (JBash.c:248), then the splitting loop
read through `memBytes`. -/
def parse_tokensMem (s slack : List Char) : List (List Char) :=
  tokenizeCoreMem (realloc_leftover_string s) slack

/-- The `args` array handed to `execute`, tokens read from the full
allocation, then the NULL sentinel written at JBash.c:285. -/
def argvMem (s slack : List Char) : List (Option (List Char)) :=
  (parse_tokensMem s slack).map some ++ [none]

/-! ## Line editor (the read loop of `parse`, JBash.c:126-243) -/

/-- The escape byte `'\033'` (JBash.c:142). -/
def ESC : Char := Char.ofNat 27

/-- JBash.c:173: `ch == 127 || ch == '\b'`. -/
def isBackspaceB (c : Char) : Bool := c == Char.ofNat 127 || c == Char.ofNat 8

/-- A byte that falls through to the final `else` of the read loop and is
inserted into the line: not newline, tab, escape or backspace/DEL. -/
def isPrintableByte (c : Char) : Bool :=
  !(c == '\n') && !(c == '\t') && !(c == ESC) && !(isBackspaceB c)

/-- The state mutated by the read loop of `parse`: the logical buffer
content (`inputString` up to `string_length`) and the `cursor`. -/
structure EditorState where
  buf : List Char
  cursor : Nat
deriving DecidableEq, Repr

/-- The state at the top of `parse` (JBash.c:116-124): zeroed buffer,
`string_length = 0`, `cursor = 0`. -/
def initEditor : EditorState := ⟨[], 0⟩

/-- The final `else` of the read loop (JBash.c:202-241): mid-buffer
insertion shifts the suffix right by one (`memmove`) and writes `ch` at
`cursor`; otherwise (by the cursor invariant, `cursor = string_length`)
the byte is appended.  Both advance `cursor` and `string_length`. -/
def editInsert (st : EditorState) (c : Char) : EditorState :=
  if st.cursor < st.buf.length then
    ⟨st.buf.insertIdx st.cursor c, st.cursor + 1⟩
  else
    ⟨st.buf ++ [c], st.cursor + 1⟩

/-- The backspace branch (JBash.c:173-201): no-op when `cursor <= 0`, else
the `memmove` shifts the suffix left over position `cursor - 1`, deleting
that character, and both counters decrement. -/
def editBackspace (st : EditorState) : EditorState :=
  if st.cursor = 0 then st
  else ⟨st.buf.eraseIdx (st.cursor - 1), st.cursor - 1⟩

/-- The arrow-key dispatch on the final selector byte of a CSI sequence
(JBash.c:150-171): right arrow moves the cursor right when
`cursor < string_length`, left arrow moves it left when `cursor > 0`,
up/down arrows (and any other selector) change nothing. -/
def editArrow (st : EditorState) (sel : Char) : EditorState :=
  if sel == 'C' then
    if st.cursor < st.buf.length then ⟨st.buf, st.cursor + 1⟩ else st
  else if sel == 'D' then
    if 0 < st.cursor then ⟨st.buf, st.cursor - 1⟩ else st
  else st

/-- The read loop of `parse` (JBash.c:126-243) over a stream of input
bytes.  Exhausting the list models `read` no longer returning 1 (end of
input): the loop exits.  A newline with `inputString[0]` zero reprints
the prompt and keeps reading; a newline otherwise finalizes and breaks.
Tab is consumed and ignored.  An escape byte consumes two more bytes
(stopping, like the C `break`s at JBash.c:145-146, if they cannot be
read) and dispatches arrows when the first is `'['`.  The capacity check
at JBash.c:128-130 does not change the logical state and is modelled by
`realloc_buffer` separately. -/
def readLoop : EditorState → List Char → EditorState
  | st, [] => st
  | st, c :: rest =>
    if c == '\n' then
      if bufGet st.buf 0 == NULLCHAR then readLoop st rest
      else st
    else if c == '\t' then readLoop st rest
    else if c == ESC then
      match rest with
      | [] => st
      | [_] => st
      | s0 :: s1 :: rest2 =>
        if s0 == '[' then readLoop (editArrow st s1) rest2
        else readLoop st rest2
    else if isBackspaceB c then readLoop (editBackspace st) rest
    else readLoop (editInsert st c) rest

/-- Number of bytes the read loop inserts from an insert/backspace-only
stream: the printable ones. -/
def countInserts (bs : List Char) : Nat := (bs.filter isPrintableByte).length

/-- Number of effective backspaces along the trajectory of the read loop
from `st`: backspace bytes that arrive while `cursor > 0` (a backspace at
cursor 0 is the `continue` at JBash.c:174-176 and is not counted).  Only
insert/backspace streams are measured; other bytes are skipped. -/
def effectiveBackspaces : EditorState → List Char → Nat
  | _, [] => 0
  | st, c :: rest =>
    if isBackspaceB c then
      if 0 < st.cursor then 1 + effectiveBackspaces (editBackspace st) rest
      else effectiveBackspaces st rest
    else if isPrintableByte c then
      effectiveBackspaces (editInsert st c) rest
    else effectiveBackspaces st rest

/-! ## Dispatcher (`execute`, JBash.c:53-102) -/

/-- The operating-system facts `execute` consults: the value of
`getenv("HOME")` (`none` models a NULL result), the status `chdir` returns
for a given target (the target is `none` when the C code passes
`getenv("HOME")`'s NULL through), and the value `fork` returns in the
parent (`-1` is failure; any other value is the child's pid). -/
structure ExecEnv where
  home : Option String
  chdirStatus : Option String → Int
  forkRc : Int

/-- What one call of `execute` does, as visible to the shell loop: the
returned `rv` (1 = continue, 0 = terminate), whether `fork` was invoked,
the target `chdir` was invoked on (if it was), and the `perror` messages
written to standard error.  The child's side of the fork (`execvp` and the
child-only exit, JBash.c:89-96) happens in a separate process and is not
part of this state. -/
structure ExecOutcome where
  rv : Nat
  forked : Bool
  chdirCalled : Option (Option String)
  stderrMsgs : List String
deriving DecidableEq, Repr

/-- `execute` (JBash.c:53-102): empty list is a no-op returning 1;
`"exit"` returns 0 with nothing else; `"cd"` resolves its target from
`args[1]` or `HOME`, calls `chdir`, reports failure via `perror`, and
returns 1 either way; anything else forks — if `fork` returns -1 the
error is reported and 0 is returned, otherwise the parent waits and
returns 1. -/
def execute (env : ExecEnv) (args : List String) : ExecOutcome :=
  match args.head? with
  | none => ⟨1, false, none, []⟩
  | some a0 =>
    if a0 == "exit" then ⟨0, false, none, []⟩
    else if a0 == "cd" then
      let target : Option String :=
        match args[1]? with
        | none => env.home
        | some t => some t
      if env.chdirStatus target == 0 then ⟨1, false, some target, []⟩
      else ⟨1, false, some target, ["Failure to Change Directory"]⟩
    else
      if env.forkRc == -1 then ⟨0, true, none, ["Fork failed"]⟩
      else ⟨1, true, none, []⟩

/-- The shell loop's continuation test (JBash.c:39: `if (status == 0)`
breaks out of `main`'s `while (1)`). -/
def shellContinues (status : Nat) : Bool := !(status == 0)

/-! ## Buffer growth (`realloc_buffer`, JBash.c:316-325) -/

/-- `STR_BUFFER` of JBash.h: starting capacity of the input string. -/
def STR_BUFFER : Nat := 16

/-- `CMD_LINE_BUFFER` of JBash.h: starting capacity of the `args` array. -/
def CMD_LINE_BUFFER : Nat := 16

/-- A growable C allocation with its tracked capacity: `mem` is the cell
array (one `Option α` per allocated cell, `none` = not yet stored), `cap`
the size the caller tracks (`string_buffer_length` /
`command_line_buffer_length` in `parse`). -/
structure GrowBuffer (α : Type) where
  mem : List (Option α)
  cap : Nat

/-- The successful path of `realloc_buffer` (JBash.c:316-325):
`*current_buffer *= 2`, then `realloc` to the new capacity — the first
`min (old size) (new size)` cells keep their contents, fresh cells are
uninitialised (`none`).  The failure path frees and exits the process and
so yields no buffer at all. -/
def realloc_buffer {α : Type} (b : GrowBuffer α) : GrowBuffer α :=
  ⟨(b.mem.take (b.cap * 2)) ++
     List.replicate (b.cap * 2 - b.mem.length) none, b.cap * 2⟩

/-! ## Terminal mode discipline (JBash.c:375-413, 421-426) -/

/-- Terminal configuration, abstracted to whether the saved original
settings or the raw settings are active. -/
inductive TermMode
  | original
  | raw
deriving DecidableEq, Repr

/-- Process-wide state relevant to the terminal discipline: the active
mode, whether `atexit(disable_raw_mode)` has been registered
(JBash.c:397), and whether the process has exited. -/
structure ProcTermState where
  mode : TermMode
  atexitRestore : Bool
  exited : Bool
deriving DecidableEq, Repr

/-- State before the first read cycle. -/
def initProc : ProcTermState := ⟨TermMode.original, false, false⟩

/-- The terminal-affecting operations the source performs. -/
inductive TermOp
  | enableRaw
  | disableRaw
  | exitProcess
deriving DecidableEq, Repr

/-- Effect of one operation.  `enableRaw` is `enable_raw_mode`
(JBash.c:389-413): save the settings, register `disable_raw_mode` with
`atexit`, then switch to raw.  `disableRaw` is `disable_raw_mode`
(JBash.c:375-382): restore the saved settings.  `exitProcess` is `exit()`,
which runs the registered `atexit` handlers — restoring the original
settings exactly when `disable_raw_mode` was registered. -/
def runTermOp (s : ProcTermState) : TermOp → ProcTermState
  | TermOp.enableRaw => ⟨TermMode.raw, true, s.exited⟩
  | TermOp.disableRaw => ⟨TermMode.original, s.atexitRestore, s.exited⟩
  | TermOp.exitProcess =>
    if s.atexitRestore then ⟨TermMode.original, s.atexitRestore, true⟩
    else ⟨s.mode, s.atexitRestore, true⟩

/-- Run a trace of terminal operations. -/
def runTermOps (s : ProcTermState) (ops : List TermOp) : ProcTermState :=
  ops.foldl runTermOp s

/-- How one read cycle of `parse` can end. -/
inductive ExitPath
  | finalized
  | readFailure
  | interrupted
deriving DecidableEq, Repr

/-- The terminal operations one read cycle performs on each exit path,
transcribed from the source.  `enable_raw_mode()` runs at JBash.c:125.
On Enter the loop breaks at JBash.c:137 and on a failed `read` — the loop
condition at JBash.c:126 or the mid-escape `break`s at JBash.c:145-146 —
the loop exits; both fall through to `disable_raw_mode()` at JBash.c:245.
On SIGINT, `handle_sigint` (JBash.c:421-426) frees the buffers and calls
`exit(EXIT_FAILURE)`, which runs the `atexit` handlers. -/
def readCycleTrace : ExitPath → List TermOp
  | ExitPath.finalized => [TermOp.enableRaw, TermOp.disableRaw]
  | ExitPath.readFailure => [TermOp.enableRaw, TermOp.disableRaw]
  | ExitPath.interrupted => [TermOp.enableRaw, TermOp.exitProcess]

/-! ## Claim theorems: dispatcher -/

/-- C5: whenever the first argument is `exit`, `execute` returns the
terminate result 0 and the fork branch is not reached, whatever the
further arguments and whatever the operating-system environment. -/
theorem claim_C5 (env : ExecEnv) (args : List String)
    (h : args.head? = some "exit") :
    (execute env args).rv = 0 ∧ (execute env args).forked = false := by
  simp [execute, h]

theorem claim_C5_witness :
    (execute ⟨none, fun _ => 0, 3⟩ ["exit", "now"]).rv = 0 ∧
    (execute ⟨none, fun _ => 0, 3⟩ ["exit", "now"]).forked = false :=
  claim_C5 ⟨none, fun _ => 0, 3⟩ ["exit", "now"] rfl

/-- C6: whenever the first argument is `cd`, `execute` resolves the
target as `args[1]` when present and as `getenv("HOME")` otherwise,
invokes `chdir` on exactly that target, never forks, reports a failed
change to standard error and nothing on success, and returns the
continue result 1 in both cases. -/
theorem claim_C6 (env : ExecEnv) (args : List String)
    (h : args.head? = some "cd") :
    (execute env args).rv = 1 ∧
    (execute env args).forked = false ∧
    (∀ t, args[1]? = some t → (execute env args).chdirCalled = some (some t)) ∧
    (args[1]? = none → (execute env args).chdirCalled = some env.home) ∧
    (∀ t, (execute env args).chdirCalled = some t →
      (env.chdirStatus t = 0 → (execute env args).stderrMsgs = []) ∧
      (env.chdirStatus t ≠ 0 →
        (execute env args).stderrMsgs = ["Failure to Change Directory"])) := by
  cases h1 : args[1]? with
  | none =>
    by_cases hs : env.chdirStatus env.home = 0 <;>
      simp [execute, h, h1, hs]
  | some t =>
    by_cases hs : env.chdirStatus (some t) = 0 <;>
      simp [execute, h, h1, hs]

theorem claim_C6_witness :
    (execute ⟨some "/home/u", fun _ => -1, 3⟩ ["cd", "/nonexistent"]).rv = 1 ∧
    (execute ⟨some "/home/u", fun _ => -1, 3⟩ ["cd", "/nonexistent"]).forked
      = false ∧
    (execute ⟨some "/home/u", fun _ => -1, 3⟩ ["cd", "/nonexistent"]).chdirCalled
      = some (some "/nonexistent") ∧
    (execute ⟨some "/home/u", fun _ => -1, 3⟩ ["cd", "/nonexistent"]).stderrMsgs
      = ["Failure to Change Directory"] := by
  obtain ⟨h1, h2, h3, _, h5⟩ :=
    claim_C6 ⟨some "/home/u", fun _ => -1, 3⟩ ["cd", "/nonexistent"] rfl
  have hc := h3 "/nonexistent" rfl
  exact ⟨h1, h2, hc, (h5 (some "/nonexistent") hc).2 (by decide)⟩

/-- C7: whenever the first argument is a non-built-in command and `fork`
itself fails (returns -1), `execute` reports the error to standard error
and returns the terminate result 0, so the shell loop test
`if (status == 0) break` ends the loop instead of prompting again. -/
theorem claim_C7 (env : ExecEnv) (args : List String) (a0 : String)
    (h : args.head? = some a0) (hx : a0 ≠ "exit") (hc : a0 ≠ "cd")
    (hf : env.forkRc = -1) :
    (execute env args).rv = 0 ∧
    (execute env args).forked = true ∧
    (execute env args).stderrMsgs = ["Fork failed"] ∧
    shellContinues (execute env args).rv = false := by
  simp [execute, h, hx, hc, hf, shellContinues]

theorem claim_C7_witness :
    (execute ⟨none, fun _ => 0, -1⟩ ["ls", "-l"]).rv = 0 ∧
    (execute ⟨none, fun _ => 0, -1⟩ ["ls", "-l"]).forked = true ∧
    (execute ⟨none, fun _ => 0, -1⟩ ["ls", "-l"]).stderrMsgs = ["Fork failed"] ∧
    shellContinues (execute ⟨none, fun _ => 0, -1⟩ ["ls", "-l"]).rv = false :=
  claim_C7 ⟨none, fun _ => 0, -1⟩ ["ls", "-l"] "ls" rfl (by decide) (by decide) rfl

/-! ## Claim theorems: buffer growth -/

/-- C8: a successful `realloc_buffer` step on a buffer with tracked
capacity `c` (all `c` cells allocated) doubles the tracked capacity to
`2 * c` — the starting capacities `STR_BUFFER` and `CMD_LINE_BUFFER` both
being 16 — and every previously stored cell is identical in position and
value after the growth. -/
theorem claim_C8 {α : Type} (b : GrowBuffer α) (h : b.mem.length = b.cap) :
    STR_BUFFER = 16 ∧ CMD_LINE_BUFFER = 16 ∧
    (realloc_buffer b).cap = 2 * b.cap ∧
    (realloc_buffer b).mem.length = 2 * b.cap ∧
    ∀ i, i < b.cap → (realloc_buffer b).mem[i]? = b.mem[i]? := by
  refine ⟨rfl, rfl, by simp [realloc_buffer]; omega, ?_, ?_⟩
  · simp [realloc_buffer]
    omega
  · intro i hi
    have ha : i < b.cap * 2 := by omega
    have hb : i < b.mem.length := by omega
    simp [realloc_buffer, List.getElem?_append, List.getElem?_take, ha, hb]

theorem claim_C8_witness :
    (realloc_buffer (⟨[some 'a', none], 2⟩ : GrowBuffer Char)).cap = 2 * 2 ∧
    (realloc_buffer (⟨[some 'a', none], 2⟩ : GrowBuffer Char)).mem[0]?
      = [some 'a', none][0]? ∧
    (realloc_buffer (⟨[some 'a', none], 2⟩ : GrowBuffer Char)).mem[1]?
      = [some 'a', none][1]? := by
  obtain ⟨_, _, h3, _, h5⟩ :=
    claim_C8 (⟨[some 'a', none], 2⟩ : GrowBuffer Char) rfl
  exact ⟨h3, h5 0 (by decide), h5 1 (by decide)⟩

/-! ## Claim theorems: terminal mode -/

/-- C9: on every exit path of one read cycle — normal finalization on
Enter, read failure (end of input or mid-escape failure), and
interrupt-triggered termination — the trace of terminal operations the
source performs ends with the original terminal settings active; on the
interrupt path this happens through the `atexit`-registered
`disable_raw_mode` before the process has exited raw. -/
theorem claim_C9 (p : ExitPath) :
    (runTermOps initProc (readCycleTrace p)).mode = TermMode.original ∧
    (p = ExitPath.interrupted →
      (runTermOps initProc (readCycleTrace p)).exited = true) := by
  cases p <;> exact ⟨rfl, by simp [runTermOps, runTermOp, readCycleTrace, initProc]⟩

theorem claim_C9_witness :
    (runTermOps initProc (readCycleTrace ExitPath.interrupted)).mode
      = TermMode.original ∧
    (runTermOps initProc (readCycleTrace ExitPath.interrupted)).exited
      = true :=
  ⟨(claim_C9 ExitPath.interrupted).1, (claim_C9 ExitPath.interrupted).2 rfl⟩

/-! ## Line editor lemmas -/

/-- Unfolding of one iteration of the read loop on a generic non-empty
input stream (the equation compiler merges the nested match on `rest`, so
this is proved by cases on the shape of `rest`). -/
theorem readLoop_cons (st : EditorState) (c : Char) (rest : List Char) :
    readLoop st (c :: rest) =
      if c == '\n' then
        if bufGet st.buf 0 == NULLCHAR then readLoop st rest else st
      else if c == '\t' then readLoop st rest
      else if c == ESC then
        match rest with
        | [] => st
        | [_] => st
        | s0 :: s1 :: rest2 =>
          if s0 == '[' then readLoop (editArrow st s1) rest2
          else readLoop st rest2
      else if isBackspaceB c then readLoop (editBackspace st) rest
      else readLoop (editInsert st c) rest := by
  cases rest with
  | nil => rfl
  | cons x xs => cases xs <;> rfl

/-- An arrow keystroke keeps the cursor within the buffer. -/
theorem editArrow_inv (st : EditorState) (sel : Char)
    (h : st.cursor ≤ st.buf.length) :
    (editArrow st sel).cursor ≤ (editArrow st sel).buf.length := by
  unfold editArrow
  split
  · split
    · next h2 => exact h2
    · exact h
  · split
    · split
      · next h2 =>
        show st.cursor - 1 ≤ st.buf.length
        omega
      · exact h
    · exact h

/-- An insertion adds exactly one character to the buffer. -/
theorem editInsert_len (st : EditorState) (c : Char) :
    (editInsert st c).buf.length = st.buf.length + 1 := by
  unfold editInsert
  split
  · next h2 =>
    show (st.buf.insertIdx st.cursor c).length = st.buf.length + 1
    exact List.length_insertIdx _ _ (Nat.le_of_lt h2)
  · show (st.buf ++ [c]).length = st.buf.length + 1
    simp

/-- An insertion advances the cursor by one. -/
theorem editInsert_cursor (st : EditorState) (c : Char) :
    (editInsert st c).cursor = st.cursor + 1 := by
  unfold editInsert
  split <;> rfl

/-- An insertion keeps the cursor within the buffer. -/
theorem editInsert_inv (st : EditorState) (c : Char)
    (h : st.cursor ≤ st.buf.length) :
    (editInsert st c).cursor ≤ (editInsert st c).buf.length := by
  rw [editInsert_cursor, editInsert_len st c]
  omega

/-- A backspace at cursor 0 is the `continue` at JBash.c:174-176: it
changes nothing. -/
theorem editBackspace_of_cursor_zero (st : EditorState)
    (h : st.cursor = 0) : editBackspace st = st := by
  unfold editBackspace
  simp [h]

/-- An effective backspace removes exactly one character. -/
theorem editBackspace_len (st : EditorState) (h0 : 0 < st.cursor)
    (h : st.cursor ≤ st.buf.length) :
    (editBackspace st).buf.length + 1 = st.buf.length := by
  unfold editBackspace
  rw [if_neg (by omega)]
  exact List.length_eraseIdx_add_one (by omega)

/-- A backspace keeps the cursor within the buffer. -/
theorem editBackspace_inv (st : EditorState)
    (h : st.cursor ≤ st.buf.length) :
    (editBackspace st).cursor ≤ (editBackspace st).buf.length := by
  by_cases h0 : st.cursor = 0
  · rw [editBackspace_of_cursor_zero st h0]
    exact h
  · have h1 := editBackspace_len st (by omega) h
    have h2 : (editBackspace st).cursor = st.cursor - 1 := by
      unfold editBackspace
      rw [if_neg h0]
    omega

/-- The cursor invariant is preserved by the whole read loop, from any
state satisfying it. -/
theorem readLoop_inv : ∀ (st : EditorState) (bs : List Char),
    st.cursor ≤ st.buf.length →
    (readLoop st bs).cursor ≤ (readLoop st bs).buf.length := by
  intro st bs
  induction st, bs using readLoop.induct with
  | case1 st => intro h; exact h
  | case2 st c rest h1 h2 ih =>
    intro h; rw [readLoop_cons]; simp only [h1, h2, if_pos]; exact ih h
  | case3 st c rest h1 h2 =>
    intro h; rw [readLoop_cons]; simpa [h1, h2] using h
  | case4 st c rest h1 h2 ih =>
    intro h; rw [readLoop_cons]; simp only [h1, h2, if_pos, if_neg]
    exact ih h
  | case5 st c h1 h2 h3 =>
    intro h; rw [readLoop_cons]; simp only [h1, h2, h3, if_pos, if_neg]
    exact h
  | case6 st c h1 h2 h3 hd =>
    intro h; rw [readLoop_cons]; simp only [h1, h2, h3, if_pos, if_neg]
    exact h
  | case7 st c h1 h2 h3 s0 s1 rest2 h4 ih =>
    intro h; rw [readLoop_cons]; simp only [h1, h2, h3, h4, if_pos, if_neg]
    exact ih (editArrow_inv st s1 h)
  | case8 st c h1 h2 h3 s0 s1 rest2 h4 ih =>
    intro h; rw [readLoop_cons]; simp only [h1, h2, h3, h4, if_pos, if_neg]
    exact ih h
  | case9 st c rest h1 h2 h3 h4 ih =>
    intro h; rw [readLoop_cons]; simp only [h1, h2, h3, h4, if_pos, if_neg]
    exact ih (editBackspace_inv st h)
  | case10 st c rest h1 h2 h3 h4 ih =>
    intro h; rw [readLoop_cons]; simp only [h1, h2, h3, h4, if_pos, if_neg]
    exact ih (editInsert_inv st c h)

/-! ## Claim theorems: line editor -/

/-- C3: for every sequence of input bytes processed by the read loop of
`parse` — printable insertions, backspace/DEL, tab, arrow escape
sequences — the state after processing satisfies
`0 <= cursor <= string_length`; since every prefix of a byte stream is
itself a byte stream, this holds after each single keystroke event. -/
theorem claim_C3 (bs : List Char) :
    0 ≤ (readLoop initEditor bs).cursor ∧
    (readLoop initEditor bs).cursor ≤ (readLoop initEditor bs).buf.length :=
  ⟨Nat.zero_le _, readLoop_inv initEditor bs (Nat.le_refl 0)⟩

/-- Unfolding of one step of the effective-backspace count. -/
theorem effectiveBackspaces_cons (st : EditorState) (c : Char)
    (rest : List Char) :
    effectiveBackspaces st (c :: rest) =
      if isBackspaceB c then
        if 0 < st.cursor then 1 + effectiveBackspaces (editBackspace st) rest
        else effectiveBackspaces st rest
      else if isPrintableByte c then
        effectiveBackspaces (editInsert st c) rest
      else effectiveBackspaces st rest := rfl

/-- Length accounting of the read loop over insert/backspace streams:
each printable byte adds one to the logical length, each effective
backspace removes one, a backspace at cursor 0 changes nothing. -/
theorem readLoop_length_acct : ∀ (bs : List Char) (st : EditorState),
    (∀ c ∈ bs, isPrintableByte c = true ∨ isBackspaceB c = true) →
    st.cursor ≤ st.buf.length →
    (readLoop st bs).buf.length + effectiveBackspaces st bs =
      st.buf.length + countInserts bs := by
  intro bs
  induction bs with
  | nil => intro st _ _; simp [readLoop, effectiveBackspaces, countInserts]
  | cons c rest ih =>
    intro st hall hinv
    have hrest : ∀ x ∈ rest, isPrintableByte x = true ∨ isBackspaceB x = true :=
      fun x hx => hall x (List.mem_cons_of_mem _ hx)
    rcases hall c (List.mem_cons_self _ _) with hp | hb
    · have hparts : ¬(c == '\n') = true ∧ ¬(c == '\t') = true ∧
          ¬(c == ESC) = true ∧ ¬isBackspaceB c = true := by
        constructor
        · intro hx; simp [isPrintableByte, hx] at hp
        constructor
        · intro hx; simp [isPrintableByte, hx] at hp
        constructor
        · intro hx; simp [isPrintableByte, hx] at hp
        · intro hx; simp [isPrintableByte, hx] at hp
      have hstep : readLoop st (c :: rest) = readLoop (editInsert st c) rest := by
        rw [readLoop_cons]
        simp [hparts.1, hparts.2.1, hparts.2.2.1, hparts.2.2.2]
      have hacct := ih (editInsert st c) hrest (editInsert_inv st c hinv)
      have hlen := editInsert_len st c
      have heff : effectiveBackspaces st (c :: rest) =
          effectiveBackspaces (editInsert st c) rest := by
        rw [effectiveBackspaces_cons, if_neg (by simpa using hparts.2.2.2),
          if_pos (by simpa using hp)]
      have hcnt : countInserts (c :: rest) = countInserts rest + 1 := by
        simp [countInserts, List.filter_cons, hp]
      rw [hstep, heff, hcnt]
      omega
    · have hnl : ¬(c == '\n') = true := by
        intro hx
        rw [beq_iff_eq] at hx
        subst hx
        simp [isBackspaceB] at hb
      have hnt : ¬(c == '\t') = true := by
        intro hx
        rw [beq_iff_eq] at hx
        subst hx
        simp [isBackspaceB] at hb
      have hne : ¬(c == ESC) = true := by
        intro hx
        rw [beq_iff_eq] at hx
        subst hx
        simp [isBackspaceB, ESC] at hb
      have hstep : readLoop st (c :: rest) = readLoop (editBackspace st) rest := by
        rw [readLoop_cons]
        simp [hnl, hnt, hne, hb]
      have hcnt : countInserts (c :: rest) = countInserts rest := by
        have hpf : isPrintableByte c = false := by
          simp [isPrintableByte, hb]
        simp [countInserts, List.filter_cons, hpf]
      by_cases h0 : st.cursor = 0
      · have hid := editBackspace_of_cursor_zero st h0
        have heff : effectiveBackspaces st (c :: rest) =
            effectiveBackspaces st rest := by
          rw [effectiveBackspaces_cons, if_pos (by simpa using hb),
            if_neg (by omega)]
        rw [hstep, hid, heff, hcnt]
        exact ih st hrest hinv
      · have heff : effectiveBackspaces st (c :: rest) =
            1 + effectiveBackspaces (editBackspace st) rest := by
          rw [effectiveBackspaces_cons, if_pos (by simpa using hb),
            if_pos (by omega)]
        have hacct := ih (editBackspace st) hrest (editBackspace_inv st hinv)
        have hlen := editBackspace_len st (by omega) hinv
        rw [hstep, heff, hcnt]
        omega

/-- C4: for every stream of printable insertions and backspaces processed
by the read loop, the final logical length is the number of inserted
bytes minus the number of effective backspaces (those arriving with
cursor greater than 0); a backspace arriving with cursor 0 changes
neither length, cursor nor buffer content. -/
theorem claim_C4 (bs : List Char)
    (h : ∀ c ∈ bs, isPrintableByte c = true ∨ isBackspaceB c = true) :
    effectiveBackspaces initEditor bs ≤ countInserts bs ∧
    (readLoop initEditor bs).buf.length =
      countInserts bs - effectiveBackspaces initEditor bs ∧
    (∀ st : EditorState, st.cursor = 0 → editBackspace st = st) := by
  have hacct := readLoop_length_acct bs initEditor h (Nat.le_refl 0)
  have h0 : initEditor.buf.length = 0 := rfl
  refine ⟨by omega, by omega, fun st hst => editBackspace_of_cursor_zero st hst⟩

theorem claim_C4_witness :
    effectiveBackspaces initEditor ['a', 'b', Char.ofNat 127] ≤
      countInserts ['a', 'b', Char.ofNat 127] ∧
    (readLoop initEditor ['a', 'b', Char.ofNat 127]).buf.length =
      countInserts ['a', 'b', Char.ofNat 127] -
        effectiveBackspaces initEditor ['a', 'b', Char.ofNat 127] ∧
    (∀ st : EditorState, st.cursor = 0 → editBackspace st = st) :=
  claim_C4 ['a', 'b', Char.ofNat 127] (by decide)

/-! ## Claim theorems: tokenizer -/

/-- C1: evaluating the tokenizer at the finalized line `echo "a b" c`.
The quoted token preserves its internal space and contains no quote
character, but the argument list is NOT the claimed three-token list: the
quote branch leaves `word_start` pointing at the separator space after the
closing quote, so the following end-of-word branch records a fourth,
empty, token between `a b` and `c`. -/
theorem claim_C1 :
    parse_tokens ['e','c','h','o',' ','"','a',' ','b','"',' ','c'] =
      [['e','c','h','o'], ['a',' ','b'], [], ['c']] ∧
    parse_tokens ['e','c','h','o',' ','"','a',' ','b','"',' ','c'] ≠
      [['e','c','h','o'], ['a',' ','b'], ['c']] := by
  decide

/-- C2: tokenizing the finalized line of two leading spaces, `hello`,
three internal spaces, `world`, two trailing spaces yields exactly the
tokens `hello` and `world`, in that order, neither containing a space. -/
theorem claim_C2 :
    parse_tokens
      [' ',' ','h','e','l','l','o',' ',' ',' ','w','o','r','l','d',' ',' '] =
      [['h','e','l','l','o'], ['w','o','r','l','d']] ∧
    (∀ t ∈ parse_tokens
      [' ',' ','h','e','l','l','o',' ',' ',' ','w','o','r','l','d',' ',' '],
      ' ' ∉ t) := by
  decide

/-! ## Tokenizer loop lemmas for the unclosed-quote case -/

/-- One-step unfolding of the token-splitting loop. -/
theorem tokLoopF_succ (fuel : Nat) (s : List Char) (n i ws start : Nat)
    (acc : List Nat) :
    tokLoopF (fuel+1) s n i ws start acc =
      (if i < n then
        if i != 0 && isQuoteB (bufGet s i) then
          let q := bufGet s i
          let j := findClose s n q (i+1)
          tokLoopF fuel (s.set j NULLCHAR) n (j+1) ws (j+1) (acc ++ [i+1])
        else if bufGet s i == ' ' && !(bufGet s (i+1) == ' ') then
          tokLoopF fuel (s.set (i - ws) NULLCHAR) n (i+1) 0 (i+1)
            (acc ++ [start])
        else if bufGet s i == ' ' && bufGet s (i+1) == ' ' then
          tokLoopF fuel s n (i+1) (ws+1) start acc
        else
          tokLoopF fuel s n (i+1) ws start acc
      else (s, acc, start)) := rfl

/-- One-step unfolding of the quote-scanning loop. -/
theorem findCloseF_succ (fuel : Nat) (s : List Char) (n : Nat) (q : Char)
    (i : Nat) :
    findCloseF (fuel+1) s n q i =
      (if i < n then
        if bufGet s i == q then i else findCloseF fuel s n q (i+1)
      else i) := rfl

/-- When the quote never occurs in `[i, n)`, the quote scan runs to
`string_length` and stops there. -/
theorem findCloseF_no_match (s : List Char) (n : Nat) (q : Char) :
    ∀ (fuel i : Nat), i ≤ n → n - i ≤ fuel →
    (∀ j, i ≤ j → j < n → ¬ bufGet s j = q) →
    findCloseF fuel s n q i = n := by
  intro fuel
  induction fuel with
  | zero =>
    intro i hin hfi _
    have : i = n := by omega
    subst this
    rfl
  | succ f ih =>
    intro i hin hfi hno
    rw [findCloseF_succ]
    by_cases hlt : i < n
    · rw [if_pos hlt, if_neg]
      · exact ih (i+1) (by omega) (by omega)
          (fun j h1 h2 => hno j (by omega) h2)
      · simp only [beq_iff_eq]
        exact hno i (by omega) hlt
    · rw [if_neg hlt]
      omega

/-- Reading any position other than the one written is unchanged. -/
theorem bufGet_set_ne (l : List Char) (m j : Nat) (a : Char) (h : m ≠ j) :
    bufGet (l.set m a) j = bufGet l j := by
  simp only [bufGet, List.getD_eq_getElem?_getD]
  rw [List.getElem?_set_ne h]

/-- Writing a NUL makes the written position read as NUL (also out of
range, where the read was already NUL). -/
theorem bufGet_set_nul (l : List Char) (m : Nat) :
    bufGet (l.set m NULLCHAR) m = NULLCHAR := by
  by_cases h : m < l.length
  · simp only [bufGet, List.getD_eq_getElem?_getD]
    rw [List.getElem?_set_eq_of_lt _ h]
    rfl
  · rw [List.set_eq_of_length_le (by omega)]
    simp only [bufGet, List.getD_eq_getElem?_getD]
    rw [List.getElem?_eq_none (by omega)]
    rfl

/-- A write strictly below the dropped region does not change it. -/
theorem drop_set_of_lt (l : List Char) (m k : Nat) (a : Char) (h : m < k) :
    (l.set m a).drop k = l.drop k := by
  apply List.ext_getElem?
  intro j
  rw [List.getElem?_drop, List.getElem?_drop]
  exact List.getElem?_set_ne (by omega)

/-- From the opening quote at `p` with no matching close before the end,
the loop stores the token start `p + 1`, runs the quote scan to the end,
writes the terminator over the terminator position, leaves the loop, and
ends with `word_start = string_length + 1`. -/
theorem tokLoopF_quote_end (s2 : List Char) (n p ws start : Nat)
    (acc : List Nat) (f : Nat)
    (hlen : s2.length = n)
    (hp1 : 1 ≤ p) (hpn : p < n)
    (hq : isQuoteB (bufGet s2 p) = true)
    (hnc : ∀ j, p < j → j < n → bufGet s2 j ≠ bufGet s2 p)
    (hf : 2 ≤ f) :
    tokLoopF f s2 n p ws start acc = (s2, acc ++ [p+1], n+1) := by
  obtain ⟨f2, rfl⟩ : ∃ f2, f = f2 + 1 + 1 := ⟨f - 2, by omega⟩
  rw [tokLoopF_succ, if_pos hpn, if_pos]
  · have hj : findClose s2 n (bufGet s2 p) (p+1) = n := by
      unfold findClose
      exact findCloseF_no_match s2 n (bufGet s2 p) n (p+1) (by omega)
        (by omega) (fun j h1 h2 => hnc j (by omega) h2)
    simp only [hj]
    rw [List.set_eq_of_length_le (by omega)]
    rw [tokLoopF_succ, if_neg (by omega)]
  · simp only [Bool.and_eq_true, bne_iff_ne, ne_eq]
    exact ⟨by omega, hq⟩

/-- Before the first quote position `p`, the loop only takes the space and
plain-byte branches: it advances index by index to `p`, possibly storing
token starts and writing NUL terminators strictly below `p`, leaving the
buffer from `p` on unchanged. -/
theorem tokLoopF_to_p (n p : Nat) (hpn : p ≤ n) :
    ∀ (k : Nat) (s' : List Char) (i ws start : Nat) (acc : List Nat) (f : Nat),
    s'.length = n → i + k = p →
    (∀ j, 1 ≤ j → j < p → isQuoteB (bufGet s' j) = false) →
    ∃ s2 ws2 start2 acc2,
      tokLoopF (k + f) s' n i ws start acc =
        tokLoopF f s2 n p ws2 start2 (acc ++ acc2) ∧
      s2.length = n ∧ s2.drop p = s'.drop p ∧
      (∀ j, 1 ≤ j → j < p → isQuoteB (bufGet s2 j) = false) := by
  intro k
  induction k with
  | zero =>
    intro s' i ws start acc f hlen hik hfq
    have hip : i = p := by omega
    subst hip
    exact ⟨s', ws, start, [], by simp, hlen, rfl, hfq⟩
  | succ k ih =>
    intro s' i ws start acc f hlen hik hfq
    have hip : i < p := by omega
    have hfuel : (k+1) + f = (k + f) + 1 := by omega
    rw [hfuel, tokLoopF_succ, if_pos (by omega : i < n)]
    have hqcond : ¬((i != 0 && isQuoteB (bufGet s' i)) = true) := by
      by_cases hi0 : i = 0
      · subst hi0; simp
      · have hqf := hfq i (by omega) hip
        simp [hqf]
    rw [if_neg hqcond]
    by_cases hA : (bufGet s' i == ' ' && !(bufGet s' (i+1) == ' ')) = true
    · rw [if_pos hA]
      have hlen2 : (s'.set (i - ws) NULLCHAR).length = n := by
        simp [hlen]
      have hfq2 : ∀ j, 1 ≤ j → j < p →
          isQuoteB (bufGet (s'.set (i - ws) NULLCHAR) j) = false := by
        intro j h1 h2
        by_cases hji : j = i - ws
        · subst hji
          rw [bufGet_set_nul]
          rfl
        · rw [bufGet_set_ne _ _ _ _ (Ne.symm hji)]
          exact hfq j h1 h2
      obtain ⟨s2, ws2, start2, acc2, heq, hl2, hd2, hq2⟩ :=
        ih (s'.set (i - ws) NULLCHAR) (i+1) 0 (i+1) (acc ++ [start]) f hlen2
          (by omega) hfq2
      refine ⟨s2, ws2, start2, [start] ++ acc2, ?_, hl2, ?_, hq2⟩
      · rw [heq]
        congr 1
        simp
      · rw [hd2, drop_set_of_lt _ _ _ _ (by omega : i - ws < p)]
    · rw [if_neg hA]
      by_cases hB : (bufGet s' i == ' ' && bufGet s' (i+1) == ' ') = true
      · rw [if_pos hB]
        exact ih s' (i+1) (ws+1) start acc f hlen (by omega) hfq
      · rw [if_neg hB]
        exact ih s' (i+1) ws start acc f hlen (by omega) hfq

/-- Reading the allocation `k` bytes past the terminator yields the
corresponding `slack` byte. -/
theorem memBytes_get_past (s2 slack : List Char) (k : Nat) :
    bufGet (memBytes s2 slack) (s2.length + 1 + k) = slack.getD k NULLCHAR := by
  simp only [memBytes, bufGet, List.getD_eq_getElem?_getD]
  rw [List.getElem?_append, if_neg (by omega)]
  have h1 : s2.length + 1 + k - s2.length = k + 1 := by omega
  rw [h1, List.getElem?_cons_succ]

/-- A predicate that holds on all of `l1` lets `takeWhile` pass through
an append. -/
theorem takeWhile_append_of_all (q : Char → Bool) (l1 l2 : List Char)
    (h : ∀ x ∈ l1, q x = true) :
    (l1 ++ l2).takeWhile q = l1 ++ l2.takeWhile q := by
  induction l1 with
  | nil => simp
  | cons a t ih =>
    simp only [List.cons_append, List.takeWhile_cons]
    rw [h a (by simp)]
    simp only [if_pos]
    rw [ih (fun x hx => h x (by simp [hx]))]

/-- On a line whose first quote sits at position `p ≥ 1` and is never
closed, the splitting loop stores the token start `p + 1` last, finishes
with `word_start = string_length + 1`, and leaves the buffer from `p` on
unchanged. -/
theorem tokLoop_unclosed (s : List Char) (p : Nat)
    (hp1 : 1 ≤ p) (hpn : p < s.length)
    (hq : isQuoteB (bufGet s p) = true)
    (hfirst : ∀ j, 1 ≤ j → j < p → isQuoteB (bufGet s j) = false)
    (hnoclose : ∀ j, p < j → j < s.length → bufGet s j ≠ bufGet s p) :
    ∃ s2 acc2, tokLoop s = (s2, acc2 ++ [p+1], s.length + 1) ∧
      s2.length = s.length ∧ s2.drop p = s.drop p := by
  obtain ⟨s2, ws2, start2, acc2, heq, hl2, hd2, _⟩ :=
    tokLoopF_to_p s.length p (by omega) p s 0 0 0 [] (s.length + 1 - p) rfl
      (by omega) hfirst
  have hsplit : p + (s.length + 1 - p) = s.length + 1 := by omega
  rw [hsplit] at heq
  have hsame : ∀ j, p ≤ j → bufGet s2 j = bufGet s j := by
    intro j hj
    have h1 := congrArg (fun l => l[j - p]?) hd2
    simp only [List.getElem?_drop] at h1
    have h2 : p + (j - p) = j := by omega
    rw [h2] at h1
    simp only [bufGet, List.getD_eq_getElem?_getD, h1]
  have hq2 : isQuoteB (bufGet s2 p) = true := by
    rw [hsame p (by omega)]
    exact hq
  have hnc2 : ∀ j, p < j → j < s.length → bufGet s2 j ≠ bufGet s2 p := by
    intro j hj1 hj2
    rw [hsame j (by omega), hsame p (by omega)]
    exact hnoclose j hj1 hj2
  have hquote := tokLoopF_quote_end s2 s.length p ws2 start2 ([] ++ acc2)
    (s.length + 1 - p) hl2 hp1 hpn hq2 hnc2 (by omega)
  refine ⟨s2, acc2, ?_, hl2, hd2⟩
  unfold tokLoop
  rw [heq, hquote]
  simp

/-- C10: for every finalized line (no leading space left after the trim,
no NUL byte in the content) whose first quote character sits at a
position `p` greater than 0 and has no matching closing quote before the
end of the line, and for every contents `slack` of the allocation past
the terminator, the tokenizer records a token equal to the entire
content strictly after the opening quote up to the end of the line, the
scan terminates normally, and the resulting `args` array is still
sentinel (NULL) terminated.  The final-word check then reads the
indeterminate byte one past the terminator: when it is NUL nothing
follows the unclosed-quote token, and when it is nonzero one extra
garbage token (the bytes of `slack` up to its first NUL) follows it. -/
theorem claim_C10 (s slack : List Char) (p : Nat)
    (hh : bufGet s 0 ≠ ' ')
    (hnonul : NULLCHAR ∉ s)
    (hp1 : 1 ≤ p) (hpn : p < s.length)
    (hq : isQuoteB (bufGet s p) = true)
    (hfirst : ∀ j, j < p → 1 ≤ j → isQuoteB (bufGet s j) = false)
    (hnoclose : ∀ j, j < s.length → p < j → bufGet s j ≠ bufGet s p) :
    (∃ ts, parse_tokensMem s slack =
        ts ++ [s.drop (p+1)] ++
          (if slack.getD 0 NULLCHAR = NULLCHAR then []
           else [slack.takeWhile (fun c => !(c == NULLCHAR))])) ∧
    (argvMem s slack).getLast? = some none := by
  have htrim : realloc_leftover_string s = s := by
    unfold realloc_leftover_string
    cases s with
    | nil => rfl
    | cons c t =>
      rw [List.dropWhile_cons, if_neg]
      intro hc
      rw [beq_iff_eq] at hc
      exact hh (by rw [show bufGet (c :: t) 0 = c from rfl, hc])
  obtain ⟨s2, acc2, htok, hl2, hd2⟩ := tokLoop_unclosed s p hp1 hpn hq
    (fun j h1 h2 => hfirst j h2 h1) (fun j h1 h2 => hnoclose j h2 h1)
  have hdrop1 : s2.drop (p+1) = s.drop (p+1) := by
    have h3 := congrArg (List.drop 1) hd2
    rw [List.drop_drop, List.drop_drop] at h3
    exact h3
  have hw : bufGet (memBytes s2 slack) (s.length + 1) =
      slack.getD 0 NULLCHAR := by
    have h5 := memBytes_get_past s2 slack 0
    rw [hl2] at h5
    simpa using h5
  have hcstr_p : cstr (memBytes s2 slack) (p+1) = s.drop (p+1) := by
    unfold cstr
    have hdm : (memBytes s2 slack).drop (p+1) =
        s.drop (p+1) ++ NULLCHAR :: slack := by
      unfold memBytes
      rw [List.drop_append_of_le_length (by omega), hdrop1]
    rw [hdm, takeWhile_append_of_all _ _ _ ?hall]
    case hall =>
      intro x hx
      have hxs : x ∈ s := List.mem_of_mem_drop hx
      have hxn : ¬(x = NULLCHAR) := fun hcc => hnonul (hcc ▸ hxs)
      simp [hxn]
    have h6 : (NULLCHAR :: slack).takeWhile (fun c => !(c == NULLCHAR)) =
        [] := by
      simp [List.takeWhile_cons]
    rw [h6, List.append_nil]
  have hcstr_g : cstr (memBytes s2 slack) (s.length + 1) =
      slack.takeWhile (fun c => !(c == NULLCHAR)) := by
    unfold cstr
    have hdm : (memBytes s2 slack).drop (s.length + 1) = slack := by
      unfold memBytes
      have h4 : s.length + 1 = (s2 ++ [NULLCHAR]).length := by
        simp [hl2]
      rw [show s2 ++ NULLCHAR :: slack = (s2 ++ [NULLCHAR]) ++ slack by simp,
        h4, List.drop_left]
    rw [hdm]
  constructor
  · refine ⟨acc2.map (cstr (memBytes s2 slack)), ?_⟩
    unfold parse_tokensMem
    rw [htrim]
    unfold tokenizeCoreMem
    rw [htok]
    by_cases hg : slack[0]?.getD NULLCHAR = NULLCHAR
    · simp [hw, hg, hcstr_p, hcstr_g, List.getD_eq_getElem?_getD]
    · simp [hw, hg, hcstr_p, hcstr_g, List.getD_eq_getElem?_getD]
  · unfold argvMem
    exact List.getLast?_concat _

theorem claim_C10_witness :
    (∃ ts, parse_tokensMem ['a','b',' ','"','c','d'] ['z','!'] =
        ts ++ [(['a','b',' ','"','c','d'] : List Char).drop (3+1)] ++
          (if (['z','!'] : List Char).getD 0 NULLCHAR = NULLCHAR then []
           else [(['z','!'] : List Char).takeWhile
                   (fun c => !(c == NULLCHAR))])) ∧
    (argvMem ['a','b',' ','"','c','d'] ['z','!']).getLast? = some none :=
  claim_C10 ['a','b',' ','"','c','d'] ['z','!'] 3 (by decide) (by decide)
    (by decide) (by decide) (by decide) (by decide) (by decide)
